import Mathlib

/-!
Verification of the metadata extraction/application workflow
(`modules/metadata_application.py`, `modules/direct_metadata_application_enhanced.py`,
`modules/direct_metadata_application_enhanced_fixed.py`, `modules/processing.py`).

The Python code manipulates JSON-like dictionaries; we embed those as an
inductive `Value` type, and Python dicts as ordered association lists
(`List (String × Value)`), with Python's insert-or-overwrite assignment
modelled by `dictSet` and lookup by `dlookup`.
-/

set_option maxHeartbeats 1000000

/-- A JSON-like Python value: string, number, boolean, list or dict. -/
inductive Value where
  | str (s : String)
  | num (n : Int)
  | bool (b : Bool)
  | list (xs : List Value)
  | obj (fields : List (String × Value))

/-- First-match lookup in an association list (Python `d[k]` / `k in d`;
Python dict keys are unique, so first-match agrees with dict lookup). -/
def dlookup {α : Type} : List (String × α) → String → Option α
  | [], _ => none
  | (k, v) :: rest, key => if k == key then some v else dlookup rest key

/-- Python dict assignment `d[k] = v`: overwrite in place when the key is
present (dict keys are unique, so the first occurrence is the occurrence),
append otherwise. -/
def dictSet {α : Type} : List (String × α) → String → α → List (String × α)
  | [], key, v => [(key, v)]
  | (k, w) :: rest, key, v =>
    if k == key then (key, v) :: rest else (k, w) :: dictSet rest key v

/-- `d.get(k, default)`. -/
def lookupD {α : Type} (m : List (String × α)) (key : String) (d : α) : α :=
  (dlookup m key).getD d

/-- ASCII lowering of one character (Python `str.lower` on ASCII input). -/
def charLower (c : Char) : Char :=
  if c.isUpper then Char.ofNat (c.toNat + 32) else c

/-- Python `s.lower()` (ASCII model). -/
def pyLower (s : String) : String := String.mk (s.data.map charLower)

/-- Python's single-character `s.replace(c, r)`. -/
def replaceChar (c r : Char) (s : String) : String :=
  String.mk (s.data.map (fun x => if x == c then r else x))

/-- `needle` is a prefix of `hay`. -/
def isPrefixOfChars : List Char → List Char → Bool
  | [], _ => true
  | _ :: _, [] => false
  | a :: as, b :: bs => a == b && isPrefixOfChars as bs

/-- Substring occurrence on character lists (Python `needle in hay`). -/
def containsSub : List Char → List Char → Bool
  | hay, needle =>
    if isPrefixOfChars needle hay then true
    else
      match hay with
      | [] => false
      | _ :: t => containsSub t needle

/-- Python `pat in s` for strings. -/
def strContains (s pat : String) : Bool := containsSub s.data pat.data

/-- Python `s.isdigit()` (ASCII model): non-empty and all digits. -/
def pyIsDigit (s : String) : Bool :=
  !s.data.isEmpty && s.data.all (fun c => c.isDigit)

/-- The fixed lexical placeholder-indicator list
(`direct_metadata_application_enhanced_fixed.py` lines 304-307). -/
def placeholder_indicators : List String :=
  ["insert", "placeholder", "<", ">", "[", "]", "enter", "fill in", "your", "example"]

/-- `is_placeholder` (`direct_metadata_application_enhanced_fixed.py` lines
299-310 and `direct_metadata_application_enhanced.py` lines 398-409): a value
that is not a string is never a placeholder; a string is a placeholder when
its lowercase form contains one of the indicators as a substring. -/
def is_placeholder (value : Value) : Bool :=
  match value with
  | .str s => placeholder_indicators.any (fun ind => strContains (pyLower s) ind)
  | _ => false

/-- The `_note` value inserted when every value was filtered as a placeholder. -/
def note_value : Value := Value.str "All other values were placeholders"

/-- The placeholder-filtering step of `apply_metadata_to_file_direct`
(`direct_metadata_application_enhanced_fixed.py` lines 339-352): drop
placeholder-valued keys; if that removed everything from a non-empty mapping,
re-insert the first key-value pair and then set a `_note` entry. -/
def filter_placeholder_values (m : List (String × Value)) : List (String × Value) :=
  let filtered := m.filter (fun kv => !is_placeholder kv.2)
  if filtered.isEmpty && !m.isEmpty then
    match m with
    | [] => []
    | (k, v) :: _ => dictSet (dictSet [] k v) "_note" note_value
  else filtered

example : is_placeholder (Value.str "[x]") = true := by decide
example : is_placeholder (Value.str "Your Name") = true := by decide
example : is_placeholder (Value.str "Acme Corp") = false := by decide
example : is_placeholder (Value.list [Value.str "example"]) = false := by decide
example : filter_placeholder_values [("_note", Value.str "[x]")] =
    [("_note", note_value)] := rfl
example : filter_placeholder_values [("a", Value.str "your name")] =
    [("a", Value.str "your name"), ("_note", note_value)] := rfl
example : filter_placeholder_values [("a", Value.str "<x>"), ("b", Value.num 3)] =
    [("b", Value.num 3)] := rfl

/-- A value built by the string constructor. -/
def isStringVal : Value → Bool
  | .str _ => true
  | _ => false

theorem dictSet_nil {α : Type} (k : String) (v : α) : dictSet [] k v = [(k, v)] := rfl

theorem dictSet_singleton_other (k : String) (v : Value) (k2 : String) (v2 : Value) :
    dictSet [(k, v)] k2 v2 =
      if k == k2 then [(k2, v2)] else [(k, v), (k2, v2)] := by
  by_cases h : k == k2 <;> simp [dictSet, h]

/-- C10: `is_placeholder` returns `false` for every value that is not a
string, so under placeholder filtering every key whose value is a number,
boolean, list or nested object is retained — even when its stringified form
contains a placeholder indicator such as "example" or a bracket. -/
theorem C10_nonstring_values_retained (m : List (String × Value)) (k : String)
    (v : Value) (hmem : (k, v) ∈ m) (hv : isStringVal v = false) :
    is_placeholder v = false ∧ (k, v) ∈ filter_placeholder_values m := by
  have h1 : is_placeholder v = false := by
    cases v <;> simp_all [is_placeholder, isStringVal]
  have hf : (k, v) ∈ m.filter (fun kv => !is_placeholder kv.2) :=
    List.mem_filter.mpr ⟨hmem, by simp [h1]⟩
  have hne : m.filter (fun kv => !is_placeholder kv.2) ≠ [] :=
    List.ne_nil_of_mem hf
  have hemp : (m.filter (fun kv => !is_placeholder kv.2)).isEmpty = false := by
    simpa [List.isEmpty_iff] using hne
  refine ⟨h1, ?_⟩
  simpa [filter_placeholder_values, hemp] using hf

/-- Witness for C10: a list value whose stringified form contains the
indicator "example" is still never a placeholder and is retained. -/
theorem C10_witness :
    is_placeholder (Value.list [Value.str "example"]) = false ∧
    ("n", Value.list [Value.str "example"]) ∈
      filter_placeholder_values [("n", Value.list [Value.str "example"])] :=
  C10_nonstring_values_retained [("n", Value.list [Value.str "example"])] "n"
    (Value.list [Value.str "example"]) (by simp) rfl

/-- C5 counterexample: for the mapping whose single key is literally `_note`
(with a placeholder value, so every value matches an indicator), the
all-placeholder fallback first re-inserts that pair and then overwrites it
with the note, so the result retains zero original key-value pairs — the
claim's "exactly one original key-value pair is retained together with a
`_note` entry" fails at this input. -/
theorem C5_counterexample :
    is_placeholder (Value.str "[x]") = true ∧
    filter_placeholder_values [("_note", Value.str "[x]")] = [("_note", note_value)] ∧
    ("_note", Value.str "[x]") ∉ filter_placeholder_values [("_note", Value.str "[x]")] := by
  refine ⟨by decide, rfl, ?_⟩
  intro h
  rw [show filter_placeholder_values [("_note", Value.str "[x]")] =
      [("_note", note_value)] from rfl] at h
  simp [note_value] at h

/-- C5 (amended): placeholder filtering empties a mapping only if the mapping
was already empty; when every value matches a placeholder indicator, the
first key is retained with its original value together with a `_note` entry
— except when the first key is itself `_note`, in which case the note
overwrites the retained pair and only the `_note` entry remains (the result
is still non-empty). -/
theorem C5_filter_never_empties (m : List (String × Value)) (k : String)
    (v : Value) (rest : List (String × Value)) :
    (filter_placeholder_values m = [] ↔ m = []) ∧
    (m = (k, v) :: rest → (∀ kv ∈ m, is_placeholder kv.2 = true) →
      filter_placeholder_values m =
        if k == "_note" then [("_note", note_value)]
        else [(k, v), ("_note", note_value)]) := by
  constructor
  · cases m with
    | nil => simp [filter_placeholder_values]
    | cons hd tl =>
      obtain ⟨k0, v0⟩ := hd
      constructor
      · intro h
        exfalso
        by_cases hemp : (((k0, v0) :: tl).filter (fun kv => !is_placeholder kv.2)).isEmpty
        · rw [filter_placeholder_values] at h
          simp only [hemp, List.isEmpty_cons, Bool.not_false, Bool.and_true,
            if_pos, Bool.true_and] at h
          rw [dictSet_nil, dictSet_singleton_other] at h
          by_cases hk : k0 == "_note" <;> simp [hk] at h
        · rw [filter_placeholder_values] at h
          simp only [hemp, Bool.false_and, if_neg, Bool.false_eq_true,
            not_false_iff] at h
          exact absurd h (by simpa [List.isEmpty_iff] using hemp)
      · intro h; cases h
  · intro hm hall
    subst hm
    have hfil : ((k, v) :: rest).filter (fun kv => !is_placeholder kv.2) = [] := by
      rw [List.filter_eq_nil_iff]
      intro a ha
      simp [hall a ha]
    rw [filter_placeholder_values]
    simp only [hfil, List.isEmpty_nil, List.isEmpty_cons, Bool.not_false,
      Bool.and_true, Bool.true_and, if_pos]
    rw [dictSet_nil, dictSet_singleton_other]

/-- Witness for C5: an all-placeholder mapping with an ordinary first key
keeps that pair and gains the `_note` entry. -/
theorem C5_witness :
    filter_placeholder_values [("a", Value.str "your name")] =
      [("a", Value.str "your name"), ("_note", note_value)] := by
  rw [(C5_filter_never_empties [("a", Value.str "your name")] "a"
    (Value.str "your name") []).2 rfl (by decide)]
  rfl

/-- Index of the first occurrence of a character (Python `s.find(c)` when the
character is known to occur). -/
def firstIdx (c : Char) : List Char → Nat
  | [] => 0
  | x :: xs => if x == c then 0 else firstIdx c xs + 1

/-- Parenthesized-id parsing of a storage key
(`direct_metadata_application_enhanced.py` lines 113-121,
`direct_metadata_application_enhanced_fixed.py` lines 146-154): when the key
contains `(` and `)`, take the slice between the first `(` and the first `)`;
if it is all digits it is the file id. -/
def parens_slice (key : String) : String :=
  String.mk ((key.data.drop (firstIdx '(' key.data + 1)).take
    (firstIdx ')' key.data - (firstIdx '(' key.data + 1)))

def extract_parens_id (key : String) : Option String :=
  if key.data.contains '(' && key.data.contains ')' then
    if 0 < firstIdx '(' key.data + 1 &&
        firstIdx '(' key.data + 1 < firstIdx ')' key.data then
      if pyIsDigit (parens_slice key) then some (parens_slice key) else none
    else none
  else none

/-- Identity resolution for one extraction-results entry in
`apply_metadata` (`metadata_application.py` lines 63-110): a fully numeric
storage key is the file id; otherwise a dict record's explicit `file_id`
field; otherwise the record is skipped. -/
def payload_file_id : Value → Option Value
  | .obj fields => dlookup fields "file_id"
  | .str _ => none
  | .num _ => none
  | .bool _ => none
  | .list _ => none

def resolve_record_ma (key : String) (result : Value) : Option Value :=
  if pyIsDigit key then some (Value.str key) else payload_file_id result

/-- Identity resolution for one extraction-results entry in the enhanced and
fixed `apply_metadata_direct` scans
(`direct_metadata_application_enhanced.py` lines 105-124,
`direct_metadata_application_enhanced_fixed.py` lines 139-157): a fully
numeric key is the file id; otherwise a parenthesized numeric substring;
otherwise the record is skipped. The record's payload is never consulted. -/
def resolve_key_enh (key : String) : Option String :=
  if pyIsDigit key then some key else extract_parens_id key

example : resolve_record_ma "123" (Value.str "x") = some (Value.str "123") := rfl
example : resolve_record_ma "a.pdf" (Value.obj [("file_id", Value.str "9")]) =
    some (Value.str "9") := rfl
example : resolve_key_enh "a.pdf (456)" = some "456" := rfl
example : resolve_key_enh "777" = some "777" := rfl
example : resolve_key_enh "a.pdf (x9)" = none := rfl

/-- C1 counterexample: the claimed resolution chain fails on the code.
`apply_metadata` skips the composite key `123_structured` even though its
leading numeric segment before the separator is `123` (the claim requires
that segment to be parsed), and the enhanced/fixed scan skips
`report_final` even when the record carries an explicit `file_id` field
(the claim requires that field to be used before any parsing). -/
theorem C1_counterexample :
    resolve_record_ma "123_structured" (Value.obj [("result", Value.str "x")]) = none ∧
    ("123_structured".data.takeWhile (fun c => c.isDigit) = "123".data ∧
      "123_structured" ≠ "123") ∧
    resolve_key_enh "report_final" = none ∧
    dlookup [("file_id", Value.str "999")] "file_id" = some (Value.str "999") := by
  refine ⟨rfl, ⟨by decide, by decide⟩, rfl, rfl⟩

/-- C1 (amended): each resolver uses only sanctioned identity sources and
otherwise skips the record. In `apply_metadata` a fully numeric storage key
is used directly, else a dict record's explicit `file_id` field, else the
record contributes nothing (composite keys are not parsed there). In the
enhanced/fixed scans a fully numeric key is used directly, else an all-digit
parenthesized substring (any id produced is all digits), else the record
contributes nothing (the explicit `file_id` field is not consulted there).
No resolver fabricates an identity outside these sources. -/
theorem C1_resolver_sound (key : String) (payload : Value) (v : Value) (r : String) :
    (resolve_record_ma key payload = some v →
      (pyIsDigit key = true ∧ v = Value.str key) ∨
      (∃ fields, payload = Value.obj fields ∧ dlookup fields "file_id" = some v)) ∧
    (resolve_key_enh key = some r → pyIsDigit r = true) ∧
    (pyIsDigit key = false →
      (∀ fields, payload = Value.obj fields → dlookup fields "file_id" = none) →
      resolve_record_ma key payload = none) ∧
    (pyIsDigit key = false → extract_parens_id key = none →
      resolve_key_enh key = none) := by
  refine ⟨?_, ?_, ?_, ?_⟩
  · intro h
    rw [resolve_record_ma] at h
    by_cases hd : pyIsDigit key = true
    · rw [if_pos hd] at h
      injection h with h2
      exact Or.inl ⟨hd, h2.symm⟩
    · rw [if_neg hd] at h
      cases payload with
      | obj fields => exact Or.inr ⟨fields, rfl, h⟩
      | str s => simp [payload_file_id] at h
      | num n => simp [payload_file_id] at h
      | bool b => simp [payload_file_id] at h
      | list xs => simp [payload_file_id] at h
  · intro h
    rw [resolve_key_enh] at h
    by_cases hd : pyIsDigit key = true
    · rw [if_pos hd] at h
      injection h with h2
      rw [← h2]
      exact hd
    · rw [if_neg hd] at h
      rw [extract_parens_id] at h
      split at h
      · split at h
        · split at h
          next hp =>
            injection h with h2
            rw [← h2]
            exact hp
          next hp => exact absurd h (by simp)
        · exact absurd h (by simp)
      · exact absurd h (by simp)
  · intro hd hfld
    rw [resolve_record_ma, if_neg (by simp [hd])]
    cases payload with
    | obj fields => exact hfld fields rfl
    | str s => rfl
    | num n => rfl
    | bool b => rfl
    | list xs => rfl
  · intro hd hp
    rw [resolve_key_enh, if_neg (by simp [hd])]
    exact hp


/-- Witness for C1: a non-numeric, non-parenthesized key with no `file_id`
field is skipped by both resolvers. -/
theorem C1_witness :
    resolve_record_ma "report_final" (Value.str "x") = none ∧
    resolve_key_enh "report_final" = none :=
  ⟨(C1_resolver_sound "report_final" (Value.str "x") (Value.str "")
      "").2.2.1 (by decide) (fun fields h => nomatch h),
   (C1_resolver_sound "report_final" (Value.str "x") (Value.str "")
      "").2.2.2 (by decide) rfl⟩

/-- The "create default metadata from file names" fallback of the fixed
variant (`direct_metadata_application_enhanced_fixed.py` lines 200-213):
when no metadata was found in any source but file ids are available, each
file id is given the fabricated mapping
`{"file_name": <name>, "test_key": "test_value"}`. -/
def metadata_fallback_fixed (file_id_to_metadata : List (String × List (String × Value)))
    (available_file_ids : List String) (file_id_to_file_name : List (String × String)) :
    List (String × List (String × Value)) :=
  if file_id_to_metadata.isEmpty && !available_file_ids.isEmpty then
    available_file_ids.foldl
      (fun acc fid =>
        dictSet acc fid
          [("file_name", Value.str (lookupD file_id_to_file_name fid ("File " ++ fid))),
           ("test_key", Value.str "test_value")])
      file_id_to_metadata
  else file_id_to_metadata

/-- C2: the code does not seed FileTargets with an explicitly empty metadata
mapping and a "no extraction result found" marker; it fabricates non-empty
metadata containing `test_key = test_value` (no such marker string exists
anywhere in the repository). Evaluated at a selected file with id `1234`
named `report.pdf` and no extraction metadata. -/
theorem C2_fabricated_default_metadata :
    metadata_fallback_fixed [] ["1234"] [("1234", "report.pdf")] =
      [("1234", [("file_name", Value.str "report.pdf"),
                 ("test_key", Value.str "test_value")])] ∧
    dlookup (lookupD (metadata_fallback_fixed [] ["1234"] [("1234", "report.pdf")])
        "1234" []) "test_key" = some (Value.str "test_value") ∧
    lookupD (metadata_fallback_fixed [] ["1234"] [("1234", "report.pdf")])
        "1234" [] ≠ [] := by
  refine ⟨rfl, rfl, ?_⟩
  intro h
  rw [show lookupD (metadata_fallback_fixed [] ["1234"] [("1234", "report.pdf")])
      "1234" [] = [("file_name", Value.str "report.pdf"),
                   ("test_key", Value.str "test_value")] from rfl] at h
  simp at h

mutual

/-- Python `repr` of a JSON-like value (used by `str()` on lists/dicts). -/
def pyRepr : Value → String
  | .str s => "\x27" ++ s ++ "\x27"
  | .num n => toString n
  | .bool b => cond b "True" "False"
  | .list xs => "[" ++ pyReprSeq xs ++ "]"
  | .obj fs => "\x7b" ++ pyReprFields fs ++ "\x7d"

def pyReprSeq : List Value → String
  | [] => ""
  | v :: rest => pyRepr v ++ (if rest.isEmpty then "" else ", ") ++ pyReprSeq rest

def pyReprFields : List (String × Value) → String
  | [] => ""
  | (k, v) :: rest =>
    "\x27" ++ k ++ "\x27: " ++ pyRepr v ++ (if rest.isEmpty then "" else ", ") ++
      pyReprFields rest

end

/-- Python `str(value)` (top-level strings print bare). -/
def pyStr (v : Value) : String :=
  match v with
  | .str s => s
  | other => pyRepr other

/-- The scalar-conversion step before the remote call
(`metadata_application.py` lines 327-330,
`direct_metadata_application_enhanced_fixed.py` lines 373-376): values that
are not `str`/`int`/`float`/`bool` are replaced by `str(value)`. -/
def stringify_value (v : Value) : Value :=
  match v with
  | .str _ => v
  | .num _ => v
  | .bool _ => v
  | other => Value.str (pyStr other)

def stringify_map (m : List (String × Value)) : List (String × Value) :=
  m.map (fun kv => (kv.1, stringify_value kv.2))

/-- Key normalization (`direct_metadata_application_enhanced_fixed.py` lines
365-371): lowercase, then spaces and hyphens become underscores. -/
def normalize_key (k : String) : String :=
  replaceChar '-' '_' (replaceChar ' ' '_' (pyLower k))

/-- The key-normalization pass builds a fresh dict with Python assignment
(later duplicates overwrite earlier ones). -/
def normalize_keys_map (m : List (String × Value)) : List (String × Value) :=
  m.foldl (fun acc kv => dictSet acc (normalize_key kv.1) kv.2) []

/-- Outcome of one remote API operation, as observed by the caller: either a
returned metadata object or a raised exception whose text is captured. -/
inductive RemoteOutcome where
  | ok (metadata : List (String × Value))
  | err (msg : String)

/-- The remote endpoint behaviour for one target file: what
`metadata("global", "properties").create(...)` and `.update(...)` would do. -/
structure RemoteApi where
  createResult : RemoteOutcome
  updateResult : RemoteOutcome

/-- One entry of the update-operations list
(`metadata_application.py` lines 356-362). -/
structure UpdateOp where
  op : String
  path : String
  value : Value

/-- `operations`: one replace operation per metadata key, addressing the key
by name in its path. -/
def make_update_operations (mv : List (String × Value)) : List UpdateOp :=
  mv.map (fun kv => UpdateOp.mk "replace" ("/" ++ kv.1) kv.2)

/-- A remote API invocation made by the engine. -/
inductive ApiCall where
  | create (scope template : String) (payload : List (String × Value))
  | update (scope template : String) (ops : List UpdateOp)

/-- Result of one per-target application. -/
inductive ApplyResult where
  | success (metadata : List (String × Value))
  | failure (errorMsg : String)

/-- The conflict test (`metadata_application.py` line 352): case-insensitive
substring check for "already exists" in the error text. -/
def is_conflict_error (e : String) : Bool := strContains (pyLower e) "already exists"

/-- The create-then-update-on-conflict core shared by `apply_metadata_to_file`
(`metadata_application.py` lines 337-390) and `apply_metadata_to_file_direct`
(`direct_metadata_application_enhanced_fixed.py` lines 386-434): try create in
the fixed ("global", "properties") namespace; on an error containing
"already exists" fall back to update with replace operations; any other
create failure is terminal. Returns the result and the trace of API calls. -/
def applyRemote (api : RemoteApi) (mv : List (String × Value)) :
    ApplyResult × List ApiCall :=
  match api.createResult with
  | .ok md => (.success md, [.create "global" "properties" mv])
  | .err e =>
    if is_conflict_error e then
      match api.updateResult with
      | .ok md =>
        (.success md,
         [.create "global" "properties" mv,
          .update "global" "properties" (make_update_operations mv)])
      | .err ue =>
        (.failure ("Error updating metadata: " ++ ue),
         [.create "global" "properties" mv,
          .update "global" "properties" (make_update_operations mv)])
    else
      (.failure ("Error creating metadata: " ++ e), [.create "global" "properties" mv])

/-- `apply_metadata_to_file` (`metadata_application.py` lines 317-390), from
the point where the target's metadata mapping has been resolved: empty
mapping is a per-target error with no remote call; otherwise stringify the
values and run the create/update flow. -/
def apply_metadata_to_file (api : RemoteApi) (metadata_values : List (String × Value)) :
    ApplyResult × List ApiCall :=
  if metadata_values.isEmpty then (.failure "No metadata values found", [])
  else applyRemote api (stringify_map metadata_values)

/-- `apply_metadata_to_file_direct`
(`direct_metadata_application_enhanced_fixed.py` lines 313-434): empty
mapping is an immediate per-target error; then optional placeholder
filtering, a second empty check, optional key normalization, stringification,
and the create/update flow. -/
def apply_metadata_to_file_direct (filter_placeholders normalize_keys : Bool)
    (api : RemoteApi) (metadata_values : List (String × Value)) :
    ApplyResult × List ApiCall :=
  if metadata_values.isEmpty then
    (.failure "No metadata found for this file", [])
  else
    let mv1 := if filter_placeholders then filter_placeholder_values metadata_values
               else metadata_values
    if mv1.isEmpty then
      (.failure "No valid metadata found after filtering placeholders", [])
    else
      let mv2 := if normalize_keys then normalize_keys_map mv1 else mv1
      applyRemote api (stringify_map mv2)

example : is_conflict_error "Conflict: metadata ALREADY EXISTS on file" = true := by
  decide
example : is_conflict_error "409 conflict" = false := by decide

/-- C3: the engine first attempts a remote create in the fixed
("global", "properties") namespace; a create failure whose text contains
"already exists" (case-insensitively) falls back to an update made of one
replace operation per metadata key, each addressing the key by name, and is
surfaced as success when the update succeeds; any non-conflict create failure
is terminal for the target with no update attempted. -/
theorem C3_create_then_update_on_conflict (api : RemoteApi)
    (mv : List (String × Value)) (e : String) :
    ((applyRemote api mv).2.head? = some (ApiCall.create "global" "properties" mv)) ∧
    (api.createResult = RemoteOutcome.err e →
      (is_conflict_error e = true →
        (applyRemote api mv).2 =
          [ApiCall.create "global" "properties" mv,
           ApiCall.update "global" "properties" (make_update_operations mv)] ∧
        (∀ md, api.updateResult = RemoteOutcome.ok md →
          (applyRemote api mv).1 = ApplyResult.success md) ∧
        (∀ ue, api.updateResult = RemoteOutcome.err ue →
          (applyRemote api mv).1 =
            ApplyResult.failure ("Error updating metadata: " ++ ue))) ∧
      (is_conflict_error e = false →
        (applyRemote api mv).1 = ApplyResult.failure ("Error creating metadata: " ++ e) ∧
        (applyRemote api mv).2 = [ApiCall.create "global" "properties" mv])) ∧
    ((make_update_operations mv).map (fun o => (o.op, o.path)) =
      mv.map (fun kv => ("replace", "/" ++ kv.1))) ∧
    is_conflict_error "Conflict: metadata ALREADY EXISTS on file" = true := by
  refine ⟨?_, ?_, ?_, by decide⟩
  · rcases hc : api.createResult with md | e2
    · simp [applyRemote, hc]
    · by_cases hconf : is_conflict_error e2 = true
      · rcases hu : api.updateResult with md | ue <;>
          simp [applyRemote, hc, hconf, hu]
      · simp [applyRemote, hc, Bool.of_not_eq_true hconf]
  · intro hc
    constructor
    · intro hconf
      refine ⟨?_, ?_, ?_⟩
      · rcases hu : api.updateResult with md | ue <;>
          simp [applyRemote, hc, hconf, hu]
      · intro md hu
        simp [applyRemote, hc, hconf, hu]
      · intro ue hu
        simp [applyRemote, hc, hconf, hu]
    · intro hconf
      constructor <;> simp [applyRemote, hc, hconf]
  · simp [make_update_operations]

/-- Witness for C3 at a concrete conflicting create. -/
theorem C3_witness :
    (applyRemote
        (RemoteApi.mk (RemoteOutcome.err "item already exists")
          (RemoteOutcome.ok [("k", Value.str "1")]))
        [("k", Value.str "1")]).1 =
      ApplyResult.success [("k", Value.str "1")] :=
  ((C3_create_then_update_on_conflict
      (RemoteApi.mk (RemoteOutcome.err "item already exists")
        (RemoteOutcome.ok [("k", Value.str "1")]))
      [("k", Value.str "1")] "item already exists").2.1 rfl).1
    (by decide) |>.2.1 [("k", Value.str "1")] rfl

/-- C8: a target whose metadata mapping is empty is recorded as a per-target
error immediately, and neither the remote create nor the update API is
invoked, in both `apply_metadata_to_file` and
`apply_metadata_to_file_direct` (for any filtering/normalization options and
any remote behaviour). -/
theorem C8_empty_metadata_no_remote_call (api : RemoteApi)
    (filter_placeholders normalize_keys : Bool) :
    apply_metadata_to_file api [] =
      (ApplyResult.failure "No metadata values found", []) ∧
    apply_metadata_to_file_direct filter_placeholders normalize_keys api [] =
      (ApplyResult.failure "No metadata found for this file", []) :=
  ⟨rfl, rfl⟩

/-- Retry configuration of `processing_state` (`processing.py` lines 69-71,
defaults `max_retries = 3`, `retry_delay = 2`). -/
structure RetryConfig where
  max_retries : Nat
  retry_delay : Nat
deriving Repr, DecidableEq

/-- The mutable `processing_state` fields driven by the sequential loop
(`processing.py` lines 446-516): the current index, the processed counter,
the per-file retry counters, the success-result map (tracked by its key set)
and the error map (file id mapped to the recorded retry count). -/
structure ProcState where
  current_file_index : Nat
  processed_files : Nat
  retries : List (String × Nat)
  results : List String
  errors : List (String × Nat)
deriving Repr, DecidableEq

/-- The reset state installed when processing starts
(`processing.py` lines 422-435). -/
def initProcState : ProcState :=
  ProcState.mk 0 0 [] [] []

/-- Observable actions of one loop pass: which file the extraction call was
attempted on, how long the pass slept, and what it finalized. -/
structure StepLog where
  attempted : Option String
  waited : Nat
  recordedError : Option (String × Nat)
  recordedSuccess : Option String
deriving Repr, DecidableEq

/-- Python `lst.append(x)` guarded into a dict-domain update: the success map
gains the key if absent (re-assignment keeps the position). -/
def listInsert (l : List String) (x : String) : List String :=
  if l.contains x then l else l ++ [x]

/-- One pass of the sequential processing loop (`processing.py` lines
446-513), with the per-attempt extraction outcome supplied by `outcome`
(applied to the file id and the current retry count): on success record the
result and advance; on failure below `max_retries` increment the retry
counter, sleep `retry_delay` and do not advance; at `max_retries` record a
terminal error carrying the retry count and advance. -/
def processStep (cfg : RetryConfig) (files : List String)
    (outcome : String → Nat → Bool) (s : ProcState) : ProcState × StepLog :=
  if s.current_file_index < files.length then
    let fid := files.getD s.current_file_index ""
    let r0 := lookupD s.retries fid 0
    if outcome fid r0 then
      (ProcState.mk (s.current_file_index + 1) (s.processed_files + 1)
        s.retries (listInsert s.results fid) s.errors,
       StepLog.mk (some fid) 0 none (some fid))
    else
      if r0 < cfg.max_retries then
        (ProcState.mk s.current_file_index s.processed_files
          (dictSet s.retries fid (r0 + 1)) s.results s.errors,
         StepLog.mk (some fid) cfg.retry_delay none none)
      else
        (ProcState.mk (s.current_file_index + 1) (s.processed_files + 1)
          (dictSet s.retries fid r0) s.results (dictSet s.errors fid r0),
         StepLog.mk (some fid) 0 (some (fid, r0)) none)
  else (s, StepLog.mk none 0 none none)

/-- `n` successive passes of the loop, with the log of what each did. -/
def runSteps (cfg : RetryConfig) (files : List String)
    (outcome : String → Nat → Bool) : Nat → ProcState → ProcState × List StepLog
  | 0, s => (s, [])
  | n + 1, s =>
    let p := processStep cfg files outcome s
    let q := runSteps cfg files outcome n p.1
    (q.1, p.2 :: q.2)

theorem dlookup_dictSet_self {α : Type} (m : List (String × α)) (k : String) (v : α) :
    dlookup (dictSet m k v) k = some v := by
  induction m with
  | nil => simp [dictSet, dlookup]
  | cons hd tl ih =>
    obtain ⟨k0, v0⟩ := hd
    by_cases hk : k0 == k
    · simp [dictSet, dlookup, hk]
    · simp [dictSet, dlookup, hk, ih]

theorem dlookup_dictSet_other {α : Type} (m : List (String × α)) (k k2 : String)
    (v : α) (h : k ≠ k2) : dlookup (dictSet m k v) k2 = dlookup m k2 := by
  induction m with
  | nil => simp [dictSet, dlookup, h]
  | cons hd tl ih =>
    obtain ⟨k0, v0⟩ := hd
    by_cases hk : k0 == k
    · have heq : k0 = k := by simpa using hk
      subst heq
      simp [dictSet, dlookup, h, hk]
    · simp [dictSet, dlookup, hk, ih]

theorem runSteps_add (cfg : RetryConfig) (files : List String)
    (outcome : String → Nat → Bool) (m n : Nat) (s : ProcState) :
    runSteps cfg files outcome (m + n) s =
      ((runSteps cfg files outcome n (runSteps cfg files outcome m s).1).1,
       (runSteps cfg files outcome m s).2 ++
         (runSteps cfg files outcome n (runSteps cfg files outcome m s).1).2) := by
  induction m generalizing s with
  | zero => simp [runSteps]
  | succ m ih =>
    have hmn : m + 1 + n = (m + n) + 1 := by omega
    rw [hmn]
    rw [show runSteps cfg files outcome ((m + n) + 1) s =
        ((runSteps cfg files outcome (m + n) (processStep cfg files outcome s).1).1,
         (processStep cfg files outcome s).2 ::
           (runSteps cfg files outcome (m + n) (processStep cfg files outcome s).1).2)
      from rfl]
    rw [ih]
    rw [show runSteps cfg files outcome (m + 1) s =
        ((runSteps cfg files outcome m (processStep cfg files outcome s).1).1,
         (processStep cfg files outcome s).2 ::
           (runSteps cfg files outcome m (processStep cfg files outcome s).1).2)
      from rfl]
    simp

theorem run_retry_phase (cfg : RetryConfig) (files : List String)
    (outcome : String → Nat → Bool) (fid : String)
    (hfail : ∀ k, outcome fid k = false) :
    ∀ (j : Nat) (t : ProcState),
      t.current_file_index < files.length →
      files.getD t.current_file_index "" = fid →
      lookupD t.retries fid 0 + j ≤ cfg.max_retries →
      (runSteps cfg files outcome j t).1.current_file_index = t.current_file_index ∧
      (runSteps cfg files outcome j t).1.processed_files = t.processed_files ∧
      (runSteps cfg files outcome j t).1.results = t.results ∧
      (runSteps cfg files outcome j t).1.errors = t.errors ∧
      lookupD (runSteps cfg files outcome j t).1.retries fid 0 =
        lookupD t.retries fid 0 + j ∧
      (runSteps cfg files outcome j t).2 =
        List.replicate j (StepLog.mk (some fid) cfg.retry_delay none none) := by
  intro j
  induction j with
  | zero =>
    intro t h1 h2 h3
    exact ⟨rfl, rfl, rfl, rfl, by simp [runSteps], rfl⟩
  | succ n ih =>
    intro t h1 h2 h3
    have hr : lookupD t.retries fid 0 < cfg.max_retries := by omega
    have hstep : processStep cfg files outcome t =
        (ProcState.mk t.current_file_index t.processed_files
          (dictSet t.retries fid (lookupD t.retries fid 0 + 1)) t.results t.errors,
         StepLog.mk (some fid) cfg.retry_delay none none) := by
      rw [processStep, if_pos h1]
      simp only [h2]
      rw [hfail]
      rw [if_neg (by simp : ¬(false = true))]
      rw [if_pos hr]
    have hlook : lookupD (dictSet t.retries fid (lookupD t.retries fid 0 + 1)) fid 0 =
        lookupD t.retries fid 0 + 1 := by
      simp [lookupD, dlookup_dictSet_self]
    have hrun : runSteps cfg files outcome (n + 1) t =
        ((runSteps cfg files outcome n (processStep cfg files outcome t).1).1,
         (processStep cfg files outcome t).2 ::
           (runSteps cfg files outcome n (processStep cfg files outcome t).1).2) := rfl
    rw [hrun, hstep]
    have ih2 := ih (ProcState.mk t.current_file_index t.processed_files
      (dictSet t.retries fid (lookupD t.retries fid 0 + 1)) t.results t.errors)
      h1 h2 (by simp only [hlook]; omega)
    refine ⟨ih2.1, ih2.2.1, ih2.2.2.1, ih2.2.2.2.1, ?_, ?_⟩
    · rw [ih2.2.2.2.2.1]
      simp only [hlook]
      omega
    · rw [ih2.2.2.2.2.2]
      rfl

/-- C4: a file whose extraction call fails on every attempt is attempted
exactly `max_retries + 1` times: the first `max_retries` passes each attempt
the file, sleep `retry_delay` and leave the file index unchanged; the final
pass attempts the file once more, records a terminal error carrying the
retry count `max_retries`, and only then advances the index (and the
processed counter) — the file is never recorded as a success. -/
theorem C4_retry_exhaustion (cfg : RetryConfig) (files : List String)
    (outcome : String → Nat → Bool) (s : ProcState) (fid : String)
    (hidx : s.current_file_index < files.length)
    (hfid : files.getD s.current_file_index "" = fid)
    (hfail : ∀ k, outcome fid k = false)
    (hfresh : lookupD s.retries fid 0 = 0) :
    (runSteps cfg files outcome (cfg.max_retries + 1) s).2 =
      List.replicate cfg.max_retries
        (StepLog.mk (some fid) cfg.retry_delay none none) ++
      [StepLog.mk (some fid) 0 (some (fid, cfg.max_retries)) none] ∧
    (∀ j, j ≤ cfg.max_retries →
      (runSteps cfg files outcome j s).1.current_file_index = s.current_file_index) ∧
    (runSteps cfg files outcome (cfg.max_retries + 1) s).1.current_file_index =
      s.current_file_index + 1 ∧
    (runSteps cfg files outcome (cfg.max_retries + 1) s).1.processed_files =
      s.processed_files + 1 ∧
    dlookup (runSteps cfg files outcome (cfg.max_retries + 1) s).1.errors fid =
      some cfg.max_retries ∧
    (runSteps cfg files outcome (cfg.max_retries + 1) s).1.results = s.results := by
  have hphase := run_retry_phase cfg files outcome fid hfail cfg.max_retries s
    hidx hfid (by omega)
  have hidx_u : (runSteps cfg files outcome cfg.max_retries s).1.current_file_index <
      files.length := by rw [hphase.1]; exact hidx
  have hfid_u : files.getD
      (runSteps cfg files outcome cfg.max_retries s).1.current_file_index "" = fid := by
    rw [hphase.1]; exact hfid
  have hru : lookupD (runSteps cfg files outcome cfg.max_retries s).1.retries fid 0 =
      cfg.max_retries := by
    rw [hphase.2.2.2.2.1, hfresh]
    omega
  have hstep : processStep cfg files outcome
      (runSteps cfg files outcome cfg.max_retries s).1 =
      (ProcState.mk
        ((runSteps cfg files outcome cfg.max_retries s).1.current_file_index + 1)
        ((runSteps cfg files outcome cfg.max_retries s).1.processed_files + 1)
        (dictSet (runSteps cfg files outcome cfg.max_retries s).1.retries fid
          cfg.max_retries)
        (runSteps cfg files outcome cfg.max_retries s).1.results
        (dictSet (runSteps cfg files outcome cfg.max_retries s).1.errors fid
          cfg.max_retries),
       StepLog.mk (some fid) 0 (some (fid, cfg.max_retries)) none) := by
    rw [processStep, if_pos hidx_u]
    simp only [hfid_u, hru]
    rw [hfail]
    rw [if_neg (by simp : ¬(false = true))]
    rw [if_neg (by omega : ¬(cfg.max_retries < cfg.max_retries))]
  have hsplit := runSteps_add cfg files outcome cfg.max_retries 1 s
  have hone : runSteps cfg files outcome 1
      (runSteps cfg files outcome cfg.max_retries s).1 =
      ((processStep cfg files outcome (runSteps cfg files outcome cfg.max_retries s).1).1,
       [(processStep cfg files outcome (runSteps cfg files outcome cfg.max_retries s).1).2]) :=
    rfl
  refine ⟨?_, ?_, ?_, ?_, ?_, ?_⟩
  · rw [hsplit, hone, hstep, hphase.2.2.2.2.2]
  · intro j hj
    exact (run_retry_phase cfg files outcome fid hfail j s hidx hfid (by omega)).1
  · rw [hsplit, hone, hstep, hphase.1]
  · rw [hsplit, hone, hstep, hphase.2.1]
  · rw [hsplit, hone, hstep]
    simp only [hphase.2.2.2.1]
    exact dlookup_dictSet_self _ _ _
  · rw [hsplit, hone, hstep, hphase.2.2.1]

/-- Witness for C4 at the default configuration (`max_retries = 3`,
`retry_delay = 2`) on a single always-failing file. -/
theorem C4_witness :
    (runSteps (RetryConfig.mk 3 2) ["f1"] (fun _ _ => false) 4 initProcState).2 =
      List.replicate 3 (StepLog.mk (some "f1") 2 none none) ++
      [StepLog.mk (some "f1") 0 (some ("f1", 3)) none] ∧
    dlookup (runSteps (RetryConfig.mk 3 2) ["f1"] (fun _ _ => false) 4
      initProcState).1.errors "f1" = some 3 ∧
    (runSteps (RetryConfig.mk 3 2) ["f1"] (fun _ _ => false) 4
      initProcState).1.current_file_index = 1 :=
  have h := C4_retry_exhaustion (RetryConfig.mk 3 2) ["f1"] (fun _ _ => false)
    initProcState "f1" (by decide) rfl (fun _ => rfl) rfl
  ⟨h.1, h.2.2.2.2.1, h.2.2.1⟩

theorem mem_dictSet {α : Type} (m : List (String × α)) (k : String) (v : α)
    (kv : String × α) (h : kv ∈ dictSet m k v) : kv ∈ m ∨ kv = (k, v) := by
  induction m with
  | nil =>
    simp [dictSet] at h
    exact Or.inr h
  | cons hd tl ih =>
    obtain ⟨k0, w⟩ := hd
    by_cases hk : k0 == k
    · rw [dictSet, if_pos hk] at h
      rcases List.mem_cons.mp h with h1 | h1
      · exact Or.inr h1
      · exact Or.inl (List.mem_cons_of_mem _ h1)
    · rw [dictSet, if_neg (by simpa using hk)] at h
      rcases List.mem_cons.mp h with h1 | h1
      · exact Or.inl (h1 ▸ List.mem_cons_self _ _)
      · rcases ih h1 with h2 | h2
        · exact Or.inl (List.mem_cons_of_mem _ h2)
        · exact Or.inr h2

theorem dlookup_eq_some_mem {α : Type} (m : List (String × α)) (k : String) (v : α)
    (h : dlookup m k = some v) : (k, v) ∈ m := by
  induction m with
  | nil => simp [dlookup] at h
  | cons hd tl ih =>
    obtain ⟨k0, w⟩ := hd
    by_cases hk : k0 == k
    · rw [dlookup, if_pos hk] at h
      have : k0 = k := by simpa using hk
      subst this
      injection h with h2
      subst h2
      exact List.mem_cons_self _ _
    · rw [dlookup, if_neg (by simpa using hk)] at h
      exact List.mem_cons_of_mem _ (ih h)

theorem dlookup_none_keys {α : Type} (m : List (String × α)) (k : String)
    (h : dlookup m k = none) : k ∉ m.map Prod.fst := by
  induction m with
  | nil => simp
  | cons hd tl ih =>
    obtain ⟨k0, w⟩ := hd
    by_cases hk : k0 == k
    · rw [dlookup, if_pos hk] at h
      exact absurd h (by simp)
    · rw [dlookup, if_neg (by simpa using hk)] at h
      intro hmem
      rcases List.mem_cons.mp hmem with h1 | h1
      · exact absurd h1.symm (by simpa using hk)
      · exact ih h h1

theorem dictSet_append {α : Type} (m : List (String × α)) (k : String) (v : α)
    (h : dlookup m k = none) : dictSet m k v = m ++ [(k, v)] := by
  induction m with
  | nil => rfl
  | cons hd tl ih =>
    obtain ⟨k0, w⟩ := hd
    by_cases hk : k0 == k
    · rw [dlookup, if_pos hk] at h
      exact absurd h (by simp)
    · rw [dlookup, if_neg (by simpa using hk)] at h
      rw [dictSet, if_neg (by simpa using hk), ih h]
      rfl

theorem getD_ne_of_nodup (files : List String) (hnd : files.Nodup) (i j : Nat)
    (hi : i < files.length) (hj : j < files.length) (hne : i ≠ j) :
    files.getD i "" ≠ files.getD j "" := by
  rw [List.getD_eq_getElem files "" hi, List.getD_eq_getElem files "" hj]
  intro h
  exact hne ((List.Nodup.getElem_inj_iff hnd).mp h)

/-- The run-state invariant of the sequential processing loop: the processed
counter tracks the index, the index never passes the end, every finalized
file is one of the files before the index, both final maps have unique keys,
and no file id is in both the success map and the error map. -/
def procInv (files : List String) (t : ProcState) : Prop :=
  t.processed_files = t.current_file_index ∧
  t.current_file_index ≤ files.length ∧
  (∀ fid ∈ t.results, ∃ j, j < t.current_file_index ∧ files.getD j "" = fid) ∧
  (∀ kv ∈ t.errors, ∃ j, j < t.current_file_index ∧ files.getD j "" = kv.1) ∧
  t.results.Nodup ∧
  (t.errors.map Prod.fst).Nodup ∧
  (∀ fid ∈ t.results, dlookup t.errors fid = none)

theorem procInv_initProcState (files : List String) : procInv files initProcState := by
  refine ⟨rfl, by simp [initProcState], ?_, ?_, ?_, ?_, ?_⟩ <;>
    simp [initProcState]

theorem mem_listInsert (l : List String) (x y : String) (h : y ∈ listInsert l x) :
    y ∈ l ∨ y = x := by
  rw [listInsert] at h
  by_cases hc : l.contains x
  · rw [if_pos hc] at h
    exact Or.inl h
  · rw [if_neg hc] at h
    rcases List.mem_append.mp h with h1 | h1
    · exact Or.inl h1
    · exact Or.inr (by simpa using h1)

theorem listInsert_nodup (l : List String) (x : String) (h : l.Nodup) :
    (listInsert l x).Nodup := by
  rw [listInsert]
  by_cases hc : l.contains x
  · rw [if_pos hc]
    exact h
  · rw [if_neg hc]
    have hx : x ∉ l := by
      intro hmem
      exact hc (by simpa using hmem)
    simpa [List.concat_eq_append] using List.Nodup.concat hx h

theorem procInv_step (cfg : RetryConfig) (files : List String)
    (outcome : String → Nat → Bool) (t : ProcState)
    (hnd : files.Nodup) (hinv : procInv files t) :
    procInv files (processStep cfg files outcome t).1 := by
  obtain ⟨h1, h2, h3, h4, h5, h6, h7⟩ := hinv
  by_cases hidx : t.current_file_index < files.length
  · set fid := files.getD t.current_file_index "" with hfid
    have hfresh_res : fid ∉ t.results := by
      intro hmem
      obtain ⟨j, hj, hget⟩ := h3 fid hmem
      exact getD_ne_of_nodup files hnd j t.current_file_index
        (Nat.lt_trans hj hidx) hidx (Nat.ne_of_lt hj) hget
    have hfresh_err : dlookup t.errors fid = none := by
      cases he : dlookup t.errors fid with
      | none => rfl
      | some v =>
        obtain ⟨j, hj, hget⟩ := h4 (fid, v) (dlookup_eq_some_mem _ _ _ he)
        exact absurd hget (getD_ne_of_nodup files hnd j t.current_file_index
          (Nat.lt_trans hj hidx) hidx (Nat.ne_of_lt hj))
    by_cases hout : outcome fid (lookupD t.retries fid 0) = true
    · have hstep : (processStep cfg files outcome t).1 =
          ProcState.mk (t.current_file_index + 1) (t.processed_files + 1)
            t.retries (listInsert t.results fid) t.errors := by
        rw [processStep, if_pos hidx]
        simp only [← hfid]
        rw [if_pos hout]
      rw [hstep]
      refine ⟨by simp [h1], hidx, ?_, ?_, ?_, h6, ?_⟩
      · intro f hf
        rcases mem_listInsert t.results fid f hf with hm | hm
        · obtain ⟨j, hj, hget⟩ := h3 f hm
          exact ⟨j, Nat.lt_succ_of_lt hj, hget⟩
        · exact ⟨t.current_file_index, Nat.lt_succ_self _, by rw [← hfid, hm]⟩
      · intro kv hkv
        obtain ⟨j, hj, hget⟩ := h4 kv hkv
        exact ⟨j, Nat.lt_succ_of_lt hj, hget⟩
      · exact listInsert_nodup t.results fid h5
      · intro f hf
        rcases mem_listInsert t.results fid f hf with hm | hm
        · exact h7 f hm
        · rw [hm]
          exact hfresh_err
    · by_cases hret : lookupD t.retries fid 0 < cfg.max_retries
      · have hstep : (processStep cfg files outcome t).1 =
            ProcState.mk t.current_file_index t.processed_files
              (dictSet t.retries fid (lookupD t.retries fid 0 + 1))
              t.results t.errors := by
          rw [processStep, if_pos hidx]
          simp only [← hfid]
          rw [if_neg hout, if_pos hret]
        rw [hstep]
        exact ⟨h1, h2, h3, h4, h5, h6, h7⟩
      · have hstep : (processStep cfg files outcome t).1 =
            ProcState.mk (t.current_file_index + 1) (t.processed_files + 1)
              (dictSet t.retries fid (lookupD t.retries fid 0))
              t.results (dictSet t.errors fid (lookupD t.retries fid 0)) := by
          rw [processStep, if_pos hidx]
          simp only [← hfid]
          rw [if_neg hout, if_neg hret]
        rw [hstep]
        refine ⟨by simp [h1], hidx, ?_, ?_, h5, ?_, ?_⟩
        · intro f hf
          obtain ⟨j, hj, hget⟩ := h3 f hf
          exact ⟨j, Nat.lt_succ_of_lt hj, hget⟩
        · intro kv hkv
          rcases mem_dictSet t.errors fid (lookupD t.retries fid 0) kv hkv with hm | hm
          · obtain ⟨j, hj, hget⟩ := h4 kv hm
            exact ⟨j, Nat.lt_succ_of_lt hj, hget⟩
          · exact ⟨t.current_file_index, Nat.lt_succ_self _, by rw [← hfid, hm]⟩
        · rw [dictSet_append t.errors fid _ hfresh_err, List.map_append]
          have hkeys : fid ∉ t.errors.map Prod.fst := dlookup_none_keys _ _ hfresh_err
          simpa [List.concat_eq_append] using List.Nodup.concat hkeys h6
        · intro f hf
          have hne : fid ≠ f := by
            intro h
            exact hfresh_res (h ▸ hf)
          rw [dlookup_dictSet_other t.errors fid f _ hne]
          exact h7 f hf
  · have hstep : (processStep cfg files outcome t).1 = t := by
      rw [processStep, if_neg hidx]
    rw [hstep]
    exact ⟨h1, h2, h3, h4, h5, h6, h7⟩

theorem procInv_runSteps (cfg : RetryConfig) (files : List String)
    (outcome : String → Nat → Bool) (hnd : files.Nodup) :
    ∀ (n : Nat) (t : ProcState), procInv files t →
      procInv files (runSteps cfg files outcome n t).1 := by
  intro n
  induction n with
  | zero => intro t h; exact h
  | succ n ih =>
    intro t h
    exact ih (processStep cfg files outcome t).1
      (procInv_step cfg files outcome t hnd h)

/-- C9: throughout a sequential processing run over selected files with
pairwise-distinct ids (started from the reset state), each file id appears at
most once in the success map, at most once in the error map, and never in
both; the processed counter always equals the current index and never passes
the number of selected files; and when the run reaches its terminal state
(index past the last file) the processed counter equals the number of
selected files. -/
theorem C9_finalize_once_and_counts (cfg : RetryConfig) (files : List String)
    (outcome : String → Nat → Bool) (n : Nat) (hnd : files.Nodup) :
    ((runSteps cfg files outcome n initProcState).1.results.all
      (fun fid =>
        (dlookup (runSteps cfg files outcome n initProcState).1.errors fid).isNone)
      = true) ∧
    (runSteps cfg files outcome n initProcState).1.results.Nodup ∧
    ((runSteps cfg files outcome n initProcState).1.errors.map Prod.fst).Nodup ∧
    (runSteps cfg files outcome n initProcState).1.processed_files =
      (runSteps cfg files outcome n initProcState).1.current_file_index ∧
    (runSteps cfg files outcome n initProcState).1.current_file_index ≤
      files.length ∧
    (files.length ≤ (runSteps cfg files outcome n initProcState).1.current_file_index →
      (runSteps cfg files outcome n initProcState).1.processed_files =
        files.length) := by
  obtain ⟨h1, h2, h3, h4, h5, h6, h7⟩ :=
    procInv_runSteps cfg files outcome hnd n initProcState
      (procInv_initProcState files)
  refine ⟨?_, h5, h6, h1, h2, ?_⟩
  · rw [List.all_eq_true]
    intro fid hfid
    rw [h7 fid hfid]
    rfl
  · intro hterm
    omega

/-- Witness for C9: two distinct files, both succeeding, after the two loop
passes that finish the run. -/
theorem C9_witness :
    ((runSteps (RetryConfig.mk 3 2) ["a", "b"] (fun _ _ => true) 2
        initProcState).1.results.all
      (fun fid =>
        (dlookup (runSteps (RetryConfig.mk 3 2) ["a", "b"] (fun _ _ => true) 2
          initProcState).1.errors fid).isNone) = true) ∧
    (runSteps (RetryConfig.mk 3 2) ["a", "b"] (fun _ _ => true) 2
      initProcState).1.processed_files = 2 :=
  have h := C9_finalize_once_and_counts (RetryConfig.mk 3 2) ["a", "b"]
    (fun _ _ => true) 2 (by decide)
  ⟨h.1, h.2.2.2.2.2 (by decide)⟩

/-- The mutable `application_state` observables of one batch-application run
(`metadata_application.py` lines 413-421), together with ghost
instrumentation for the analysis: the order in which per-target completions
were read (`processedLog`), the completed-but-never-read results
(`discarded`), the number of reads of the `is_applying` flag (`checks_done`),
and whether a cleared flag was observed (`cancelled`). -/
structure BatchState where
  started_batches : Nat
  applied_files : Nat
  succeeded : List String
  failed : List String
  processedLog : List String
  discarded : List String
  checks_done : Nat
  cancelled : Bool
deriving Repr, DecidableEq

def initBatchState : BatchState :=
  BatchState.mk 0 0 [] [] [] [] 0 false

/-- The inner `as_completed` loop of `apply_metadata_batch`
(`metadata_application.py` lines 447-492), sequentialized: the items are the
batch's tasks in completion order; after each task completes the `is_applying`
flag is read (modelled as a function of how many reads happened so far);
while it reads true the completed result is recorded (success or error by
`outcome`) and the applied-files counter is incremented by one; on the first
false read the loop breaks and the completed-but-unread results — the tasks
the pool was allowed to finish — are discarded. -/
def runBatchItems (flag : Nat → Bool) (outcome : String → Bool) :
    List String → BatchState → BatchState
  | [], s => s
  | fid :: rest, s =>
    if flag s.checks_done then
      runBatchItems flag outcome rest
        (BatchState.mk s.started_batches (s.applied_files + 1)
          (if outcome fid then s.succeeded ++ [fid] else s.succeeded)
          (if outcome fid then s.failed else s.failed ++ [fid])
          (s.processedLog ++ [fid]) s.discarded (s.checks_done + 1) s.cancelled)
    else
      BatchState.mk s.started_batches s.applied_files s.succeeded s.failed
        s.processedLog (s.discarded ++ (fid :: rest)) (s.checks_done + 1) true

/-- The outer batch loop of `apply_metadata_batch` (`metadata_application.py`
lines 424-457): before each batch the `is_applying` flag is read; on true the
batch's tasks are all submitted (at most the batch size in flight) and
drained by the inner loop before the next batch is considered — strict FIFO
across batches; on false the loop breaks and no further batch starts.
`sched` reorders each batch into its completion order. -/
def runBatches (flag : Nat → Bool) (outcome : String → Bool)
    (sched : List String → List String) :
    List (List String) → BatchState → BatchState
  | [], s => s
  | batch :: rest, s =>
    if flag s.checks_done then
      runBatches flag outcome sched rest
        (runBatchItems flag outcome (sched batch)
          (BatchState.mk (s.started_batches + 1) s.applied_files s.succeeded
            s.failed s.processedLog s.discarded (s.checks_done + 1) s.cancelled))
    else
      BatchState.mk s.started_batches s.applied_files s.succeeded s.failed
        s.processedLog s.discarded (s.checks_done + 1) true

/-- Fuelled batching of `range(0, total, batch_size)` with slices
`[i : i + batch_size]` (`metadata_application.py` lines 424-439); the fuel is
the list length, enough whenever the batch size is positive. -/
def chunkGo (C : Nat) : Nat → List String → List (List String)
  | _, [] => []
  | 0, _ :: _ => []
  | fuel + 1, x :: xs => ((x :: xs).take C) :: chunkGo C fuel ((x :: xs).drop C)

def chunkList (C : Nat) (targets : List String) : List (List String) :=
  chunkGo C targets.length targets

/-- `apply_metadata_batch` (`metadata_application.py` lines 402-496) from the
reset application state: partition the targets into consecutive batches of
the configured size and run the batch loop. -/
def apply_metadata_batch (flag : Nat → Bool) (outcome : String → Bool)
    (sched : List String → List String) (C : Nat) (targets : List String) :
    BatchState :=
  runBatches flag outcome sched (chunkList C targets) initBatchState

example : chunkList 5 ["t1", "t2", "t3", "t4", "t5", "t6", "t7"] =
    [["t1", "t2", "t3", "t4", "t5"], ["t6", "t7"]] := rfl
example : chunkList 2 ["a", "b", "c"] = [["a", "b"], ["c"]] := rfl

theorem chunkGo_flatten (C : Nat) (hC : 0 < C) :
    ∀ (fuel : Nat) (l : List String), l.length ≤ fuel →
      (chunkGo C fuel l).flatten = l := by
  intro fuel
  induction fuel with
  | zero =>
    intro l hl
    cases l with
    | nil => rfl
    | cons x xs => simp at hl
  | succ fuel ih =>
    intro l hl
    cases l with
    | nil => rfl
    | cons x xs =>
      cases C with
      | zero => omega
      | succ c =>
        have hl2 : xs.length + 1 ≤ fuel + 1 := by simpa using hl
        rw [chunkGo]
        simp only [List.flatten_cons]
        rw [ih ((x :: xs).drop (c + 1))
          (by simp only [List.length_drop, List.length_cons]; omega)]
        exact List.take_append_drop _ _

theorem chunkGo_sizes (C : Nat) (hC : 0 < C) :
    ∀ (fuel : Nat) (l : List String) (b : List String),
      b ∈ chunkGo C fuel l → 0 < b.length ∧ b.length ≤ C := by
  intro fuel
  induction fuel with
  | zero =>
    intro l b hb
    cases l with
    | nil => simp [chunkGo] at hb
    | cons x xs =>
      cases C with
      | zero => omega
      | succ c => simp [chunkGo] at hb
  | succ fuel ih =>
    intro l b hb
    cases l with
    | nil => simp [chunkGo] at hb
    | cons x xs =>
      cases C with
      | zero => omega
      | succ c =>
        rw [chunkGo] at hb
        rcases List.mem_cons.mp hb with h1 | h1
        · subst h1
          constructor
          · simp [List.length_take]
          · simp [List.length_take]
        · exact ih _ b h1

theorem chunkGo_dropLast (C : Nat) (hC : 0 < C) :
    ∀ (fuel : Nat) (l : List String) (b : List String),
      l.length ≤ fuel → b ∈ (chunkGo C fuel l).dropLast → b.length = C := by
  intro fuel
  induction fuel with
  | zero =>
    intro l b hl hb
    cases l with
    | nil => simp [chunkGo] at hb
    | cons x xs => simp at hl
  | succ fuel ih =>
    intro l b hl hb
    cases l with
    | nil => simp [chunkGo] at hb
    | cons x xs =>
      cases C with
      | zero => omega
      | succ c =>
        have hl2 : xs.length + 1 ≤ fuel + 1 := by simpa using hl
        rw [chunkGo] at hb
        by_cases hrest : (x :: xs).drop (c + 1) = []
        · rw [hrest] at hb
          simp [chunkGo] at hb
        · have hlen : c + 1 < xs.length + 1 := by
            by_contra hcon
            exact hrest (List.drop_eq_nil_of_le
              (by simp only [List.length_cons]; omega))
          have hchunk_ne : chunkGo (c + 1) fuel ((x :: xs).drop (c + 1)) ≠ [] := by
            obtain ⟨y, ys, hys⟩ := List.exists_cons_of_ne_nil hrest
            rw [hys]
            have hylen : ys.length + 1 = xs.length + 1 - (c + 1) := by
              have := congrArg List.length hys
              simp only [List.length_drop, List.length_cons] at this
              omega
            cases fuel with
            | zero => omega
            | succ f => simp [chunkGo]
          rw [List.dropLast_cons_of_ne_nil hchunk_ne] at hb
          rcases List.mem_cons.mp hb with h1 | h1
          · subst h1
            simp only [List.length_take, List.length_cons]
            omega
          · exact ih _ b
              (by simp only [List.length_drop, List.length_cons]; omega) h1

theorem runBatchItems_all_true (flag : Nat → Bool) (outcome : String → Bool)
    (hflag : ∀ i, flag i = true) :
    ∀ (items : List String) (s : BatchState),
      runBatchItems flag outcome items s =
        BatchState.mk s.started_batches (s.applied_files + items.length)
          (s.succeeded ++ items.filter (fun x => outcome x))
          (s.failed ++ items.filter (fun x => !outcome x))
          (s.processedLog ++ items) s.discarded
          (s.checks_done + items.length) s.cancelled := by
  intro items
  induction items with
  | nil => intro s; simp [runBatchItems]
  | cons fid rest ih =>
    intro s
    rw [runBatchItems, if_pos (hflag _), ih]
    by_cases ho : outcome fid = true <;>
      simp [ho, List.filter_cons, List.append_assoc] <;> omega

theorem runBatches_all_true (flag : Nat → Bool) (outcome : String → Bool)
    (sched : List String → List String) (hflag : ∀ i, flag i = true) :
    ∀ (chunks : List (List String)) (s : BatchState),
      runBatches flag outcome sched chunks s =
        BatchState.mk (s.started_batches + chunks.length)
          (s.applied_files + ((chunks.map (fun b => (sched b).length)).sum))
          (s.succeeded ++
            (chunks.map (fun b => (sched b).filter (fun x => outcome x))).flatten)
          (s.failed ++
            (chunks.map (fun b => (sched b).filter (fun x => !outcome x))).flatten)
          (s.processedLog ++ (chunks.map sched).flatten)
          s.discarded
          (s.checks_done + chunks.length +
            (chunks.map (fun b => (sched b).length)).sum)
          s.cancelled := by
  intro chunks
  induction chunks with
  | nil => intro s; simp [runBatches]
  | cons batch rest ih =>
    intro s
    rw [runBatches, if_pos (hflag _), runBatchItems_all_true flag outcome hflag, ih]
    simp [List.append_assoc]
    omega

theorem runBatchItems_applied_eq_log (flag : Nat → Bool) (outcome : String → Bool) :
    ∀ (items : List String) (s : BatchState),
      s.applied_files = s.processedLog.length →
      (runBatchItems flag outcome items s).applied_files =
        (runBatchItems flag outcome items s).processedLog.length := by
  intro items
  induction items with
  | nil => intro s h; exact h
  | cons fid rest ih =>
    intro s h
    rw [runBatchItems]
    by_cases hf : flag s.checks_done = true
    · rw [if_pos hf]
      exact ih _ (by simp [h])
    · rw [if_neg hf]
      exact h

theorem runBatches_applied_eq_log (flag : Nat → Bool) (outcome : String → Bool)
    (sched : List String → List String) :
    ∀ (chunks : List (List String)) (s : BatchState),
      s.applied_files = s.processedLog.length →
      (runBatches flag outcome sched chunks s).applied_files =
        (runBatches flag outcome sched chunks s).processedLog.length := by
  intro chunks
  induction chunks with
  | nil => intro s h; exact h
  | cons batch rest ih =>
    intro s h
    rw [runBatches]
    by_cases hf : flag s.checks_done = true
    · rw [if_pos hf]
      exact ih _ (runBatchItems_applied_eq_log flag outcome _ _ h)
    · rw [if_neg hf]
      exact h

theorem runBatchItems_cancel (flag : Nat → Bool) (outcome : String → Bool) :
    ∀ (m : Nat) (items : List String) (s : BatchState),
      m < items.length →
      (∀ j, j < m → flag (s.checks_done + j) = true) →
      flag (s.checks_done + m) = false →
      runBatchItems flag outcome items s =
        BatchState.mk s.started_batches (s.applied_files + m)
          (s.succeeded ++ (items.take m).filter (fun x => outcome x))
          (s.failed ++ (items.take m).filter (fun x => !outcome x))
          (s.processedLog ++ items.take m)
          (s.discarded ++ items.drop m)
          (s.checks_done + m + 1) true := by
  intro m
  induction m with
  | zero =>
    intro items s hm htrue hfalse
    cases items with
    | nil => simp at hm
    | cons fid rest =>
      rw [runBatchItems, if_neg (by simpa using hfalse)]
      simp
  | succ m ih =>
    intro items s hm htrue hfalse
    cases items with
    | nil => simp at hm
    | cons fid rest =>
      rw [runBatchItems,
        if_pos (by simpa using htrue 0 (Nat.succ_pos m))]
      rw [ih rest _ (by simpa using hm)
        (fun j hj => by
          simpa [Nat.add_assoc, Nat.add_comm 1 j] using htrue (j + 1) (by omega))
        (by simpa [Nat.add_assoc, Nat.add_comm 1 m] using hfalse)]
      by_cases ho : outcome fid = true <;>
        simp [ho, List.filter_cons, List.append_assoc] <;> omega

/-- C7: for `N` targets and batch size `C ≥ 1`, the engine partitions the
targets into consecutive batches of size `C` (last batch possibly smaller),
so at most `C` per-target operations are ever submitted/in flight at once;
batches run strictly FIFO — the completion log is exactly batch 1's
completions, then batch 2's, and so on, for any within-batch completion
order; absent cancellation the completed counter reaches `N`, no result is
discarded, and (for every flag behaviour) the completed counter always
equals the number of completions read so far, i.e. it grows by exactly one
per per-target completion. -/
theorem C7_batching_bounded_fifo (C : Nat) (targets : List String)
    (flag : Nat → Bool) (outcome : String → Bool)
    (sched : List String → List String)
    (hC : 0 < C) (hflag : ∀ i, flag i = true)
    (hsched : ∀ b, List.Perm (sched b) b) :
    (chunkList C targets).flatten = targets ∧
    (∀ b ∈ chunkList C targets, 0 < b.length ∧ b.length ≤ C) ∧
    (∀ b ∈ (chunkList C targets).dropLast, b.length = C) ∧
    (apply_metadata_batch flag outcome sched C targets).processedLog =
      ((chunkList C targets).map sched).flatten ∧
    (apply_metadata_batch flag outcome sched C targets).applied_files =
      targets.length ∧
    (apply_metadata_batch flag outcome sched C targets).started_batches =
      (chunkList C targets).length ∧
    (apply_metadata_batch flag outcome sched C targets).cancelled = false ∧
    (apply_metadata_batch flag outcome sched C targets).discarded = [] ∧
    (∀ flag2 : Nat → Bool,
      (apply_metadata_batch flag2 outcome sched C targets).applied_files =
        (apply_metadata_batch flag2 outcome sched C targets).processedLog.length) := by
  have hjoin : (chunkList C targets).flatten = targets :=
    chunkGo_flatten C hC targets.length targets (le_refl _)
  have hrun := runBatches_all_true flag outcome sched hflag
    (chunkList C targets) initBatchState
  have hlen : ((chunkList C targets).map (fun b => (sched b).length)).sum =
      targets.length := by
    have h1 : (chunkList C targets).map (fun b => (sched b).length) =
        (chunkList C targets).map List.length := by
      apply List.map_congr_left
      intro b hb
      exact (hsched b).length_eq
    rw [h1, ← List.length_flatten, hjoin]
  refine ⟨hjoin, ?_, ?_, ?_, ?_, ?_, ?_, ?_, ?_⟩
  · intro b hb
    exact chunkGo_sizes C hC targets.length targets b hb
  · intro b hb
    exact chunkGo_dropLast C hC targets.length targets b (le_refl _) hb
  · rw [apply_metadata_batch, hrun]
    rfl
  · rw [apply_metadata_batch, hrun]
    simpa [initBatchState] using hlen
  · rw [apply_metadata_batch, hrun]
    simp [initBatchState]
  · rw [apply_metadata_batch, hrun]
    rfl
  · rw [apply_metadata_batch, hrun]
    rfl
  · intro flag2
    rw [apply_metadata_batch]
    exact runBatches_applied_eq_log flag2 outcome sched (chunkList C targets)
      initBatchState rfl

/-- Witness for C7: three targets at batch size 2, everything succeeding. -/
theorem C7_witness :
    (apply_metadata_batch (fun _ => true) (fun _ => true) (fun b => b) 2
      ["a", "b", "c"]).applied_files = 3 ∧
    (apply_metadata_batch (fun _ => true) (fun _ => true) (fun b => b) 2
      ["a", "b", "c"]).started_batches = 2 ∧
    (apply_metadata_batch (fun _ => true) (fun _ => true) (fun b => b) 2
      ["a", "b", "c"]).processedLog = ["a", "b", "c"] :=
  have h := C7_batching_bounded_fifo 2 ["a", "b", "c"] (fun _ => true)
    (fun _ => true) (fun b => b) (by omega) (fun _ => rfl)
    (fun b => List.Perm.refl b)
  ⟨h.2.2.2.2.1, by rw [h.2.2.2.2.2.1]; rfl, by rw [h.2.2.2.1]; rfl⟩

theorem chunkList_cons (C : Nat) (targets : List String) (hC : 0 < C)
    (hne : targets ≠ []) :
    chunkList C targets =
      targets.take C :: chunkGo C (targets.length - 1) (targets.drop C) := by
  cases targets with
  | nil => exact absurd rfl hne
  | cons x xs =>
    cases C with
    | zero => omega
    | succ c => rfl

/-- C6: cancellation is cooperative. The `is_applying` flag is read once
before each batch and once after each task completion; reads are numbered,
`k` is the first read that returns false, and the flag stays false afterward
(the cancel handler only clears it). When the false read happens inside the
first batch (`1 ≤ k ≤ C`, with more than one batch pending), exactly `k - 1`
completions were read, so the completed counter stays strictly below the
batch size `C`; the remaining in-flight tasks of batch one finish but their
results are discarded unread (the discard list is non-empty); only one batch
ever starts — the second batch never starts — and exactly one more flag read
happens (the pre-batch-two check), after which the run stops. -/
theorem C6_cooperative_cancellation (C : Nat) (targets : List String)
    (flag : Nat → Bool) (outcome : String → Bool)
    (sched : List String → List String) (k : Nat)
    (hC : 0 < C) (hlen : C < targets.length)
    (hsched : ∀ b, List.Perm (sched b) b)
    (hmono : ∀ i j, i ≤ j → flag i = false → flag j = false)
    (hktrue : ∀ i, i < k → flag i = true)
    (hkfalse : flag k = false)
    (hk1 : 1 ≤ k) (hkC : k ≤ C) :
    (apply_metadata_batch flag outcome sched C targets).started_batches = 1 ∧
    (apply_metadata_batch flag outcome sched C targets).applied_files = k - 1 ∧
    k - 1 < C ∧
    (apply_metadata_batch flag outcome sched C targets).cancelled = true ∧
    (apply_metadata_batch flag outcome sched C targets).processedLog =
      (sched (targets.take C)).take (k - 1) ∧
    (apply_metadata_batch flag outcome sched C targets).discarded =
      (sched (targets.take C)).drop (k - 1) ∧
    (apply_metadata_batch flag outcome sched C targets).discarded ≠ [] ∧
    (apply_metadata_batch flag outcome sched C targets).checks_done = k + 2 := by
  have hne : targets ≠ [] := by
    intro h
    rw [h] at hlen
    simp at hlen
  have hchunk := chunkList_cons C targets hC hne
  have htake_len : (targets.take C).length = C := by
    simp only [List.length_take]
    omega
  have hb1len : (sched (targets.take C)).length = C := by
    rw [(hsched _).length_eq, htake_len]
  have hm : k - 1 < (sched (targets.take C)).length := by omega
  have hdropne : targets.drop C ≠ [] := by
    intro h
    have := congrArg List.length h
    simp only [List.length_drop, List.length_nil] at this
    omega
  obtain ⟨y, ys, hys⟩ := List.exists_cons_of_ne_nil hdropne
  have hlen2 : 2 ≤ targets.length := by omega
  have hrest : chunkGo C (targets.length - 1) (targets.drop C) =
      (targets.drop C).take C ::
        chunkGo C (targets.length - 2) ((targets.drop C).drop C) := by
    rw [hys, show targets.length - 1 = (targets.length - 2) + 1 from by omega]
    cases C with
    | zero => omega
    | succ c => rfl
  have hflag0 : flag 0 = true := hktrue 0 (by omega)
  have hitems := runBatchItems_cancel flag outcome (k - 1) (sched (targets.take C))
    (BatchState.mk 1 0 [] [] [] [] 1 false) hm
    (fun j hj => hktrue (1 + j) (by omega))
    (by rw [show 1 + (k - 1) = k from by omega]; exact hkfalse)
  have hfinal : apply_metadata_batch flag outcome sched C targets =
      BatchState.mk 1 (k - 1)
        (((sched (targets.take C)).take (k - 1)).filter (fun x => outcome x))
        (((sched (targets.take C)).take (k - 1)).filter (fun x => !outcome x))
        ((sched (targets.take C)).take (k - 1))
        ((sched (targets.take C)).drop (k - 1)) (k + 2) true := by
    rw [apply_metadata_batch, hchunk, runBatches]
    simp only [initBatchState, Nat.zero_add]
    rw [if_pos hflag0, hitems]
    dsimp only
    simp only [Nat.zero_add, List.nil_append]
    rw [hrest, runBatches]
    rw [hmono k (1 + (k - 1) + 1) (by omega) hkfalse]
    rw [if_neg (by simp : ¬(false = true))]
    dsimp only
    simp only [BatchState.mk.injEq, true_and, and_true]
    omega
  refine ⟨?_, ?_, by omega, ?_, ?_, ?_, ?_, ?_⟩
  · rw [hfinal]
  · rw [hfinal]
  · rw [hfinal]
  · rw [hfinal]
  · rw [hfinal]
  · rw [hfinal]
    dsimp only
    have hdlen : ((sched (targets.take C)).drop (k - 1)).length = C - (k - 1) := by
      simp [List.length_drop, hb1len]
    intro h
    rw [h] at hdlen
    simp only [List.length_nil] at hdlen
    omega
  · rw [hfinal]

/-- Witness for C6: three targets at batch size 2, the flag's very first
post-completion read returning false — zero completions are recorded, both
batch-one results are discarded unread, and batch two never starts. -/
theorem C6_witness :
    (apply_metadata_batch (fun i => decide (i < 1)) (fun _ => true) (fun b => b) 2
      ["a", "b", "c"]).started_batches = 1 ∧
    (apply_metadata_batch (fun i => decide (i < 1)) (fun _ => true) (fun b => b) 2
      ["a", "b", "c"]).applied_files = 0 ∧
    (apply_metadata_batch (fun i => decide (i < 1)) (fun _ => true) (fun b => b) 2
      ["a", "b", "c"]).discarded = ["a", "b"] ∧
    (apply_metadata_batch (fun i => decide (i < 1)) (fun _ => true) (fun b => b) 2
      ["a", "b", "c"]).cancelled = true :=
  have h := C6_cooperative_cancellation 2 ["a", "b", "c"]
    (fun i => decide (i < 1)) (fun _ => true) (fun b => b) 1
    (by omega) (by simp) (fun b => List.Perm.refl b)
    (fun i j hij hf => by
      simp only [decide_eq_false_iff_not] at hf ⊢
      omega)
    (fun i hi => decide_eq_true hi)
    (by simp) (by omega) (by omega)
  ⟨h.1, by rw [h.2.1], by rw [h.2.2.2.2.2.1]; rfl, h.2.2.2.1⟩
